import Mathlib

/-!
# tail-guard entrypoint: a verification development

Shallow embedding of `src/entrypoint/main.go` and `src/entrypoint/resolv.go`.

Conventions.

* A Go `string` is its sequence of bytes, `GoString := List Nat`; a byte is a
  natural number below 256.  Nothing below needs the bound, so the theorems
  hold for every list.
* `ascii "..."` is the byte sequence of an ASCII literal.
* The functions of Go's `strings` package the program calls are modelled on
  bytes, see each definition.
-/

namespace TailGuard

/-- A Go string: its bytes. -/
abbrev GoString := List Nat

/-- Bytes of an ASCII literal. -/
def ascii (s : String) : GoString := s.toList.map Char.toNat

/-! ## The `strings` package -/

/-- Table `asciiSpace` of package `strings`: tab, newline, vertical tab,
form feed, carriage return, space. -/
def asciiSpace (b : Nat) : Bool :=
  b = 9 || b = 10 || b = 11 || b = 12 || b = 13 || b = 32

/-- Width in bytes of the white-space rune beyond ASCII whose UTF-8 encoding
starts `s`, or `0` when `s` does not start with one.  The white-space runes
beyond ASCII are those of `unicode.IsSpace`: U+0085 (C2 85), U+00A0 (C2 A0),
U+1680 (E1 9A 80), U+2000..U+200A (E2 80 80..8A), U+2028, U+2029, U+202F
(E2 80 A8, A9, AF), U+205F (E2 81 9F), U+3000 (E3 80 80). -/
def wideSpaceWidth : GoString → Nat
  | [] => 0
  | b :: rest =>
    if b = 0xC2 then
      match rest with
      | c :: _ => if c = 0x85 ∨ c = 0xA0 then 2 else 0
      | [] => 0
    else if b = 0xE1 then
      match rest with
      | c :: d :: _ => if c = 0x9A ∧ d = 0x80 then 3 else 0
      | _ => 0
    else if b = 0xE2 then
      match rest with
      | c :: d :: _ =>
        if c = 0x80 ∧ ((0x80 ≤ d ∧ d ≤ 0x8A) ∨ d = 0xA8 ∨ d = 0xA9 ∨ d = 0xAF) then 3
        else if c = 0x81 ∧ d = 0x9F then 3
        else 0
      | _ => 0
    else if b = 0xE3 then
      match rest with
      | c :: d :: _ => if c = 0x80 ∧ d = 0x80 then 3 else 0
      | _ => 0
    else 0

/-- Width in bytes of the white-space rune (`unicode.IsSpace`) at the front of
`s`, or `0` when `s` does not start with one. -/
def spaceWidth : GoString → Nat
  | [] => 0
  | b :: rest => if asciiSpace b then 1 else wideSpaceWidth (b :: rest)

/-- Same as `spaceWidth` for a string read from its end: `r` is the string
reversed, the answer the width of the white-space rune the string ends with.
Go's `DecodeLastRuneInString` walks back to the nearest byte that is not a
continuation byte and decodes from there, which finds exactly these
encodings. -/
def spaceWidthRev : GoString → Nat
  | [] => 0
  | b :: rest =>
    if asciiSpace b then 1
    else
      match rest with
      | c :: more =>
        if wideSpaceWidth [c, b] = 2 then 2
        else
          match more with
          | d :: _ => if wideSpaceWidth [d, c, b] = 3 then 3 else 0
          | [] => 0
      | [] => 0

/-- Drop white-space runes from the front; the first argument counts the
bytes of the current rune still to drop, `width` measures the rune at the
front. -/
def dropSpaces (width : GoString → Nat) : Nat → GoString → GoString
  | _, [] => []
  | k + 1, _ :: rest => dropSpaces width k rest
  | 0, b :: rest =>
    if width (b :: rest) = 0 then b :: rest
    else dropSpaces width (width (b :: rest) - 1) rest

/-- Go's `strings.TrimSpace`: all leading, then all trailing white space
(in the sense of Unicode) removed. -/
def TrimSpace (s : GoString) : GoString :=
  (dropSpaces spaceWidthRev 0 (dropSpaces spaceWidth 0 s).reverse).reverse

/-- Loop of Go's `strings.Fields`: `k` bytes of a separator rune still to
skip, `cur` the field read so far. -/
def fieldsAux : Nat → GoString → GoString → List GoString
  | _, cur, [] => if cur = [] then [] else [cur]
  | k + 1, cur, _ :: rest => fieldsAux k cur rest
  | 0, cur, b :: rest =>
    if spaceWidth (b :: rest) = 0 then fieldsAux 0 (cur ++ [b]) rest
    else (if cur = [] then [] else [cur]) ++ fieldsAux (spaceWidth (b :: rest) - 1) [] rest

/-- Go's `strings.Fields`: the maximal runs of bytes free of white-space
runes. -/
def Fields (s : GoString) : List GoString := fieldsAux 0 [] s

/-- Lower-case of one byte: `A`..`Z` become `a`..`z`. -/
def lowerByte (b : Nat) : Nat := if 65 ≤ b ∧ b ≤ 90 then b + 32 else b

/-- Go's `strings.ToLower`, exact on strings of ASCII bytes.  On a string
holding a byte of 0x80 or more Go maps every rune through the Unicode tables
and re-encodes it; its output then still holds a byte of 0x80 or more, or one
of the letters `k` (from U+212A) and `i` (from U+0130), the only runes beyond
ASCII whose lower case is ASCII.  The model keeps such bytes as they are: the
program only compares the result with ASCII words free of `k` and `i`, and
both outputs differ from each of them. -/
def ToLower (s : GoString) : GoString := s.map lowerByte

/-! ## Environment and configuration (`main.go`) -/

/-- The process environment: the value of a variable, when set. -/
abbrev Env := GoString → Option GoString

/-- Go's `os.Getenv`: the value, empty when the variable is unset. -/
def Getenv (env : Env) (k : GoString) : GoString := (env k).getD []

/-- Source `getenv` (main.go:18). -/
def getenv (env : Env) (k defv : GoString) : GoString :=
  if Getenv env k ≠ [] then Getenv env k else defv

/-- Source `strBoolEnv` (main.go:25). -/
def strBoolEnv (env : Env) (k : GoString) (defv : Bool) : Bool :=
  let v := Getenv env k
  if v = [] then defv
  else
    let l := ToLower v
    if l = ascii "1" ∨ l = ascii "t" ∨ l = ascii "true" ∨ l = ascii "y" ∨
        l = ascii "yes" ∨ l = ascii "on" then true
    else false

/-- Go's slice expression `s[lo:hi]`. -/
def slice (s : GoString) (lo hi : Nat) : GoString := (s.take hi).drop lo

/-- Source `unquote` (main.go:40); 39 is the single quote, 34 the double
quote. -/
def unquote (s : GoString) : GoString :=
  if 2 ≤ s.length then
    if (s.get? 0 = some 39 ∧ s.get? (s.length - 1) = some 39) ∨
        (s.get? 0 = some 34 ∧ s.get? (s.length - 1) = some 34) then
      slice s 1 (s.length - 1)
    else s
  else s

/-- Source `splitArgs` (main.go:50). -/
def splitArgs (s : GoString) : List GoString :=
  let s := TrimSpace s
  if s = [] then []
  else (Fields s).map unquote

/-! ### Vocabulary of the claims about the configuration -/

/-- Two bytes that are the same byte, or the same letter up to ASCII case. -/
def sameLetter (a b : Nat) : Bool :=
  a = b || (65 ≤ a && a ≤ 90 && b = a + 32) || (65 ≤ b && b ≤ 90 && a = b + 32)

/-- Case-insensitive comparison of two strings: same length, and byte by byte
the same letter up to ASCII case. -/
def sameIgnoringCase : GoString → GoString → Bool
  | [], [] => true
  | a :: v, b :: w => sameLetter a b && sameIgnoringCase v w
  | _, _ => false

/-- The spellings documented as true. -/
def truthyWords : List GoString :=
  [ascii "1", ascii "t", ascii "true", ascii "y", ascii "yes", ascii "on"]

/-- The argument-list value of the splitting example: leading, repeated and
trailing spaces, one single-quoted token with a space inside. -/
def argsExample : GoString := ascii "  --x=1   '--y=2 3'  "

/-! ## Local DNS merge (`resolv.go`)

The function embedded here is `setupLocalDNS` of `resolv.go`.  `main.go:118`
declares a function of the same name in the same package, which overwrites
the file with two fixed lines; the statements below are about the merge of
`resolv.go`. -/

/-- Go's `strings.Split(s, sep)` for a separator of one byte: the pieces
between the occurrences of `sep`, empty pieces kept; one empty piece for the
empty string. -/
def Split (sep : Nat) : GoString → List GoString
  | [] => [[]]
  | b :: rest =>
    if b = sep then [] :: Split sep rest
    else
      match Split sep rest with
      | [] => [[b]]
      | l :: ls => (b :: l) :: ls

/-- Go's `strings.Join`. -/
def Join : List GoString → GoString → GoString
  | [], _ => []
  | [a], _ => a
  | a :: b :: rest, sep => a ++ sep ++ Join (b :: rest) sep

/-- Go's `strings.HasSuffix(s, "\n")`. -/
def HasSuffixNL (s : GoString) : Bool := s.getLast? = some 10

/-- The lines `setupLocalDNS` wants at the top of the file (resolv.go:20). -/
def desiredLines : List GoString :=
  [ascii "nameserver 127.0.0.1", ascii "nameserver ::1"]

/-- The keys of the map `exists` (resolv.go:41-46): the trimmed lines that are
not empty. -/
def existsSet (lines : List GoString) : List GoString :=
  (lines.map TrimSpace).filter (fun t => t ≠ [])

/-- The slice `toPrepend` (resolv.go:49-54): the desired lines that are no key
of `exists`, in the order of `desiredLines`. -/
def toPrepend (lines : List GoString) : List GoString :=
  desiredLines.filter (fun dl => !(existsSet lines).contains dl)

/-- Source `setupLocalDNS` (resolv.go:18), as a function of the state of
`/etc/resolv.conf`: `none` when the file does not exist, `some orig` when it
holds `orig`.  The result is the state the call leaves; the file system calls
(read, write, sync, rename) are taken to succeed. -/
def setupLocalDNS : Option GoString → Option GoString
  | none => some (Join desiredLines [10] ++ [10])
  | some orig =>
    let lines := Split 10 orig
    if (toPrepend lines).length = 0 then some orig
    else
      let newLines := toPrepend lines ++ lines
      let newContent := Join newLines [10]
      if HasSuffixNL newContent then some newContent
      else some (newContent ++ [10])

/-! ### Vocabulary of the claims about the merge -/

/-- The lines of a file content. -/
def fileLines (content : GoString) : List GoString := Split 10 content

/-- The desired lines no line of `orig` equals after trimming, in order. -/
def missingLines (orig : GoString) : List GoString :=
  desiredLines.filter (fun d => decide (∀ ln ∈ fileLines orig, TrimSpace ln ≠ d))

/-- The given lines, one per line: each followed by a newline. -/
def lineBlock (ls : List GoString) : GoString := (ls.map (fun l => l ++ [10])).flatten

/-- Number of lines of a file state that equal `d` after trimming; none in a
file that does not exist. -/
def occurrences (d : GoString) : Option GoString → Nat
  | none => 0
  | some content => (fileLines content).countP (fun ln => TrimSpace ln = d)

/-- The newline `setupLocalDNS` appends after the old content: one, when lines
were prepended to a non-empty content that does not end with a newline. -/
def closingNL (orig : GoString) : GoString :=
  if missingLines orig ≠ [] ∧ orig ≠ [] ∧ orig.getLast? ≠ some 10 then [10] else []


/-! ## Readiness polling (`main.go`)

Time is a clock in milliseconds.  A probe is an external command: its run
reports something and takes some time, both given by the environment as a
function of the attempt number (counted from 0).  Any delay beyond the
300 ms of `time.Sleep` counts as time of the next probe. -/

/-- Go's `strings.Contains`. -/
def Contains : GoString → GoString → Bool
  | [], sub => sub.isEmpty
  | b :: rest, sub => sub.isPrefixOf (b :: rest) || Contains rest sub

/-- One run of a probe command: what the caller reads from it, and the time
the run took. -/
structure ProbeRun (α : Type) where
  /-- What the command reported. -/
  report : α
  /-- Milliseconds between the start of the run and its return. -/
  took : Nat

/-- What a poll returns: `ready` for `nil`, otherwise the timeout error; with
it, the number of probe runs made and the clock at the return. -/
structure PollResult where
  /-- Whether the call returned `nil`. -/
  ready : Bool
  /-- Number of probe runs made. -/
  attempts : Nat
  /-- Clock at the return. -/
  clock : Nat
deriving DecidableEq

/-- The `for` loop of `waitFor` (main.go:64-76) and of `waitForTailscaleIP`
(main.go:128-139): run the probe, return `nil` when `good` holds of its
report, return the error when the clock is after the deadline, else sleep
300 ms and go round again.  `fuel` bounds the number of rounds; `i` is the
number of the attempt, `now` the clock when it starts. -/
def pollLoop {α : Type} (good : α → Bool) (probe : Nat → ProbeRun α) (deadline : Nat) :
    Nat → Nat → Nat → Option PollResult
  | 0, _, _ => none
  | fuel + 1, i, now =>
    let after := now + (probe i).took
    if good (probe i).report then some ⟨true, i + 1, after⟩
    else if after > deadline then some ⟨false, i + 1, after⟩
    else pollLoop good probe deadline fuel (i + 1) (after + 300)

/-- Source `waitFor` (main.go:62).  A probe reports `cmd.ProcessState`: `none`
for `nil`, else the exit code; the check is
`cmd.ProcessState != nil && cmd.ProcessState.ExitCode() == 0`.  `start` is
the clock at the call, `timeout` in milliseconds. -/
def waitFor (probe : Nat → ProbeRun (Option Int)) (start timeout fuel : Nat) :
    Option PollResult :=
  pollLoop (fun ps => ps = some 0) probe (start + timeout) fuel 0 start

/-- Source `waitForTailscaleIP` (main.go:126).  A probe reports the combined
output of `tailscale ip`. -/
def waitForTailscaleIP (probe : Nat → ProbeRun GoString) (start timeout fuel : Nat) :
    Option PollResult :=
  pollLoop
    (fun out =>
      let s := TrimSpace out
      s ≠ [] && (Contains s (ascii "100.") || Contains s (ascii "100:")))
    probe (start + timeout) fuel 0 start

/-- Rounds that always suffice for a poll with the given timeout. -/
def enoughFuel (timeout : Nat) : Nat := timeout / 300 + 2

/-- Clock at the end of probe run `i` when all runs before it failed: the
runs so far and a sleep of 300 ms after each failed one. -/
def clockAfter {α : Type} (probe : Nat → ProbeRun α) (start : Nat) : Nat → Nat
  | 0 => start + (probe 0).took
  | i + 1 => clockAfter probe start i + 300 + (probe (i + 1)).took

/-- Clock at the start of probe run `i` when all runs before it failed. -/
def clockBefore {α : Type} (probe : Nat → ProbeRun α) (start : Nat) : Nat → Nat
  | 0 => start
  | i + 1 => clockAfter probe start i + 300

/-- The contract of a poller `run` (arguments: start, timeout, fuel) whose
check is `good`, over the probe runs `probe`:
* a result with `ready` comes from the first good probe run, not an earlier
  one;
* when run `k` is the first good one and no run before it ends with the
  clock after `start + timeout`, the poller returns ready after exactly
  `k + 1` runs, with any fuel above `k`;
* when no run is good, the poller returns, with `enoughFuel timeout` rounds,
  the timeout error, and whenever it returns it is that error, with the clock
  after `start + timeout`. -/
def PollerContract {α : Type} (good : α → Bool) (probe : Nat → ProbeRun α)
    (run : Nat → Nat → Nat → Option PollResult) : Prop :=
  (∀ start timeout fuel r, run start timeout fuel = some r → r.ready = true →
      good (probe (r.attempts - 1)).report = true ∧
      ∀ j, j + 1 < r.attempts → good (probe j).report = false) ∧
  (∀ start timeout k fuel, k < fuel →
      (∀ j, j < k → good (probe j).report = false) →
      good (probe k).report = true →
      (∀ j, j < k → clockAfter probe start j ≤ start + timeout) →
      run start timeout fuel = some ⟨true, k + 1, clockAfter probe start k⟩) ∧
  (∀ start timeout, (∀ i, good (probe i).report = false) →
      (∃ r, run start timeout (enoughFuel timeout) = some r) ∧
      ∀ fuel r, run start timeout fuel = some r →
        r.ready = false ∧ start + timeout < r.clock)

/-- Probe runs where the first run fails after 1500 ms, the second fails at
once and the third succeeds. -/
def slowProbe (i : Nat) : ProbeRun (Option Int) :=
  if i = 0 then ⟨some 1, 1500⟩ else if i = 1 then ⟨some 1, 0⟩ else ⟨some 0, 0⟩

/-- Runs of `tailscale ip` where the first hangs for 11 s and prints nothing,
the second prints nothing at once and the third prints an address. -/
def hungProbe (i : Nat) : ProbeRun GoString :=
  if i = 0 then ⟨[], 11000⟩ else if i = 1 then ⟨[], 0⟩ else ⟨ascii "100.64.0.7\n", 0⟩


/-! ## Supervision (`main.go:281-334`)

The state after both children were started, the signal channel registered and
the goroutine of line 287 created; its steps are those of the main goroutine,
of that goroutine, and of the environment (a signal is delivered, a child
terminates). -/

/-- The signals `signal.Notify` registers (main.go:283). -/
inductive Signal
  | SIGINT
  | SIGTERM
  | SIGHUP
deriving DecidableEq

/-- The two children. -/
inductive Child
  | tailscaled
  | adGuardHome
deriving DecidableEq

/-- An `os.ProcessState`, as far as the loop reads it: the answer of
`Exited()`. -/
structure ProcessState where
  /-- Answer of `Exited()`. -/
  exited : Bool
deriving DecidableEq

/-- An `exec.Cmd` handle.  `ProcessState` is the field of that name: `nil`
(`none`) until `Cmd.Wait` or `Cmd.Run` returns, the only calls that set it.
`running` is the state of the operating-system process, which the program
learns through `Wait` only. -/
structure Cmd where
  /-- The field `ProcessState`. -/
  ProcessState : Option ProcessState
  /-- Whether the child process is still alive. -/
  running : Bool
deriving DecidableEq

/-- Source `startProc` (main.go:100) when `cmd.Start` succeeds:
`exec.Command` and `Start` leave `ProcessState` nil, the child runs. -/
def startProc : Cmd := { ProcessState := none, running := true }

/-- What the supervisor does that the outside can see. -/
inductive Event
  /-- `tailscale logout --force` is started (main.go:297). -/
  | logoutStarted
  /-- That command returned, or its 5 s context expired. -/
  | logoutFinished
  /-- `Process.Signal(sig)` on a child. -/
  | signalled (c : Child) (sig : Signal)
  /-- `Process.Wait()` on a child returned. -/
  | waited (c : Child)
  /-- The process ends with this status. -/
  | exited (status : Nat)
deriving DecidableEq

/-- Where the goroutine of main.go:287-304 stands. -/
inductive HandlerPc
  /-- Created, not yet at its receive. -/
  | created
  /-- Blocked in `sig := <-sigCh`. -/
  | parked
  /-- Has `sig`, about to run the logout command. -/
  | received (sig : Signal)
  /-- Inside `cmd.Run()` of the logout command. -/
  | loggingOut (sig : Signal)
  /-- Logout over, about to signal the children. -/
  | forwarding (sig : Signal)
  /-- Returned. -/
  | finished
deriving DecidableEq

/-- Where the main goroutine stands. -/
inductive MainPc
  /-- In `waitLoop`. -/
  | looping
  /-- At `tsd.Process.Wait()` (main.go:328). -/
  | waitTsd
  /-- At `agh.Process.Wait()` (main.go:329). -/
  | waitAgh
  /-- The process has ended. -/
  | ended
deriving DecidableEq

/-- State of the supervising phase. -/
structure Sup where
  /-- Buffer of `sigCh`, capacity 2, oldest first. -/
  sigCh : List Signal
  /-- Handle of tailscaled. -/
  tsd : Cmd
  /-- Handle of AdGuardHome. -/
  agh : Cmd
  /-- The goroutine of line 287. -/
  handler : HandlerPc
  /-- The main goroutine. -/
  main : MainPc
  /-- The variable `exitErr`; `none` for `nil`. -/
  exitErr : Option GoString
  /-- Events so far, oldest first. -/
  trace : List Event
deriving DecidableEq

/-- State when `waitLoop` is entered for the first time. -/
def supervising : Sup :=
  { sigCh := [], tsd := startProc, agh := startProc, handler := HandlerPc.created,
    main := MainPc.looping, exitErr := none, trace := [] }

/-- Signalling both children, tailscaled first (main.go:300-301, 313-314). -/
def forwardBoth (sig : Signal) : List Event :=
  [Event.signalled Child.tailscaled sig, Event.signalled Child.adGuardHome sig]

/-- One step of the main goroutine: one round of `waitLoop` (main.go:309-326),
or one of the statements after it (main.go:328-333).  A `Wait` on a running
child blocks: the step changes nothing. -/
def mainStep (s : Sup) : Sup :=
  match s.main with
  | MainPc.looping =>
    match s.sigCh with
    | sig :: rest => { s with sigCh := rest, trace := s.trace ++ forwardBoth sig }
    | [] =>
      if s.tsd.ProcessState.any (fun ps => ps.exited) then
        { s with exitErr := some (ascii "tailscaled exited"), main := MainPc.waitTsd }
      else if s.agh.ProcessState.any (fun ps => ps.exited) then
        { s with exitErr := some (ascii "AdGuardHome exited"), main := MainPc.waitTsd }
      else s
  | MainPc.waitTsd =>
    if s.tsd.running then s
    else { s with main := MainPc.waitAgh, trace := s.trace ++ [Event.waited Child.tailscaled] }
  | MainPc.waitAgh =>
    if s.agh.running then s
    else
      { s with
        main := MainPc.ended
        trace := s.trace ++
          [Event.waited Child.adGuardHome, Event.exited (if s.exitErr.isSome then 1 else 0)] }
  | MainPc.ended => s

/-- One step of the goroutine of main.go:287-304. -/
def handlerStep (s : Sup) : Sup :=
  match s.handler with
  | HandlerPc.created =>
    match s.sigCh with
    | sig :: rest => { s with sigCh := rest, handler := HandlerPc.received sig }
    | [] => { s with handler := HandlerPc.parked }
  | HandlerPc.parked => s
  | HandlerPc.received sig =>
    { s with handler := HandlerPc.loggingOut sig, trace := s.trace ++ [Event.logoutStarted] }
  | HandlerPc.loggingOut sig =>
    { s with handler := HandlerPc.forwarding sig, trace := s.trace ++ [Event.logoutFinished] }
  | HandlerPc.forwarding sig =>
    { s with handler := HandlerPc.finished, trace := s.trace ++ forwardBoth sig }
  | HandlerPc.finished => s

/-- The runtime delivers a signal: to a receiver blocked on `sigCh` if there
is one, else into the buffer if it has room, else nowhere (`signal.Notify`
does not block). -/
def deliver (sig : Signal) (s : Sup) : Sup :=
  if s.handler = HandlerPc.parked then { s with handler := HandlerPc.received sig }
  else if s.sigCh.length < 2 then { s with sigCh := s.sigCh ++ [sig] }
  else s

/-- A child process terminates on its own.  The `Cmd` field `ProcessState`
is not touched: no `Cmd.Wait` is running. -/
def childExits (c : Child) (s : Sup) : Sup :=
  match c with
  | Child.tailscaled => { s with tsd := { s.tsd with running := false } }
  | Child.adGuardHome => { s with agh := { s.agh with running := false } }

/-- A step of an execution. -/
inductive Action
  /-- The environment delivers a signal. -/
  | deliver (sig : Signal)
  /-- A child terminates on its own. -/
  | childExits (c : Child)
  /-- The main goroutine takes a step. -/
  | main
  /-- The goroutine of line 287 takes a step. -/
  | handler
deriving DecidableEq

/-- Effect of one action. -/
def act : Action → Sup → Sup
  | Action.deliver sig => deliver sig
  | Action.childExits c => childExits c
  | Action.main => mainStep
  | Action.handler => handlerStep

/-- Effect of a schedule, first action first. -/
def exec (schedule : List Action) (s : Sup) : Sup :=
  schedule.foldl (fun st a => act a st) s

/-- `n` steps of the main goroutine in a row. -/
def mainSteps : Nat → Sup → Sup
  | 0, s => s
  | n + 1, s => mainSteps n (mainStep s)

/-- The first signal forwarded to a child is preceded by the end of the
logout: before the first `signalled` event of the trace there is a
`logoutFinished`. -/
def logoutBeforeForward : List Event → Bool
  | [] => true
  | Event.logoutFinished :: _ => true
  | Event.signalled _ _ :: _ => false
  | _ :: rest => logoutBeforeForward rest

/-- Probe runs of 100 ms each, the third the first to succeed. -/
def readyThird (i : Nat) : ProbeRun (Option Int) :=
  if i < 2 then ⟨some 1, 100⟩ else ⟨some 0, 100⟩

/-- A file content with a foreign line and no newline at its end. -/
def searchOnly : GoString := ascii "search example.com"

/-- A file content that holds the first desired line twice. -/
def twiceLocal : GoString := ascii "nameserver 127.0.0.1\nnameserver 127.0.0.1\n"

/-! ## Lemmas and theorems -/

/-! ### Configuration: `unquote`, `strBoolEnv`, `splitArgs` -/

theorem get?_zero_eq_head? (s : GoString) : s.get? 0 = s.head? := by
  cases s <;> rfl

theorem get?_last_eq_getLast? (s : GoString) : s.get? (s.length - 1) = s.getLast? := by
  rw [List.getLast?_eq_getElem?, List.get?_eq_getElem?]

theorem slice_inner (s : GoString) : slice s 1 (s.length - 1) = s.tail.dropLast := by
  unfold slice
  rw [List.dropLast_eq_take, List.drop_take, List.length_tail, ← List.drop_one]

theorem unquote_wrapped (q : Nat) (mid : GoString) (hq : q = 39 ∨ q = 34) :
    unquote (q :: (mid ++ [q])) = mid := by
  have hlen : 2 ≤ (q :: (mid ++ [q])).length := by simp
  have hlast : (q :: (mid ++ [q])).get? ((q :: (mid ++ [q])).length - 1) = some q := by
    rw [get?_last_eq_getLast?, ← List.cons_append, List.getLast?_append]
    simp
  have hslice : slice (q :: (mid ++ [q])) 1 ((q :: (mid ++ [q])).length - 1) = mid := by
    rw [slice_inner]; simp
  unfold unquote
  rw [if_pos hlen, hlast, hslice]
  rcases hq with rfl | rfl <;> simp

/-- Claim C4: `unquote` strips exactly one matching pair of wrapping quotes
and is otherwise the identity.  When `s` has length at least 2 and its first
and last bytes are both the single quote (39) or both the double quote (34),
`unquote s` is `s` without its first and last byte; in every other case it is
`s`.  In particular a string `q mid q` gives `mid` whatever `mid` holds: inner
quotes are kept and no second pair is stripped. -/
theorem unquote_spec (s : GoString) :
    unquote s =
      (if 2 ≤ s.length ∧ ((s.head? = some 39 ∧ s.getLast? = some 39) ∨
          (s.head? = some 34 ∧ s.getLast? = some 34))
        then s.tail.dropLast else s) ∧
    (∀ q mid, (q = 39 ∨ q = 34) → s = q :: (mid ++ [q]) → unquote s = mid) := by
  refine ⟨?_, ?_⟩
  · unfold unquote
    rw [get?_zero_eq_head?, get?_last_eq_getLast?, slice_inner]
    by_cases h2 : 2 ≤ s.length
    · by_cases hq : (s.head? = some 39 ∧ s.getLast? = some 39) ∨
          (s.head? = some 34 ∧ s.getLast? = some 34)
      · rw [if_pos h2, if_pos hq, if_pos ⟨h2, hq⟩]
      · rw [if_pos h2, if_neg hq, if_neg (fun h => hq h.2)]
    · rw [if_neg h2, if_neg (fun h => h2 h.1)]
  · intro q mid hq hs
    subst hs
    exact unquote_wrapped q mid hq

theorem lowerByte_eq_iff (a b : Nat) (hb : ¬ (65 ≤ b ∧ b ≤ 90)) :
    lowerByte a = b ↔ sameLetter a b = true := by
  unfold lowerByte sameLetter
  by_cases ha : 65 ≤ a ∧ a ≤ 90
  · rw [if_pos ha]
    simp only [Bool.or_eq_true, Bool.and_eq_true, decide_eq_true_eq]
    constructor
    · intro h; omega
    · intro h; omega
  · rw [if_neg ha]
    simp only [Bool.or_eq_true, Bool.and_eq_true, decide_eq_true_eq]
    constructor
    · intro h; omega
    · intro h; omega

theorem toLower_eq_iff (v w : GoString) (hw : ∀ b ∈ w, ¬ (65 ≤ b ∧ b ≤ 90)) :
    ToLower v = w ↔ sameIgnoringCase v w = true := by
  induction v generalizing w with
  | nil =>
    cases w with
    | nil => simp [ToLower, sameIgnoringCase]
    | cons b w => simp [ToLower, sameIgnoringCase]
  | cons a v ih =>
    cases w with
    | nil => simp [ToLower, sameIgnoringCase]
    | cons b w =>
      have hb := hw b (List.mem_cons_self _ _)
      have hw2 : ∀ c ∈ w, ¬ (65 ≤ c ∧ c ≤ 90) := fun c hc => hw c (List.mem_cons_of_mem _ hc)
      have ih2 := ih w hw2
      unfold ToLower at ih2 ⊢
      simp only [List.map_cons, List.cons.injEq, sameIgnoringCase, Bool.and_eq_true]
      rw [lowerByte_eq_iff a b hb, ih2]

theorem truthyWords_lower : ∀ w ∈ truthyWords, ∀ b ∈ w, ¬ (65 ≤ b ∧ b ≤ 90) := by
  decide

/-- Claim C6: `strBoolEnv` gives the default when the variable is unset or
empty; otherwise it gives `true` exactly when the value, compared without
regard to letter case, is one of `1`, `t`, `true`, `y`, `yes`, `on`, and
`false` for every other value, whatever the default. -/
theorem strBoolEnv_spec (env : Env) (k : GoString) (d : Bool) :
    strBoolEnv env k d =
      (if env k = none ∨ env k = some [] then d
        else decide (∃ w ∈ truthyWords, sameIgnoringCase ((env k).getD []) w = true)) := by
  have key : ∀ v : GoString,
      (ToLower v = ascii "1" ∨ ToLower v = ascii "t" ∨ ToLower v = ascii "true" ∨
        ToLower v = ascii "y" ∨ ToLower v = ascii "yes" ∨ ToLower v = ascii "on") ↔
      ∃ w ∈ truthyWords, sameIgnoringCase v w = true := by
    intro v
    rw [toLower_eq_iff v _ (truthyWords_lower (ascii "1") (by decide)),
      toLower_eq_iff v _ (truthyWords_lower (ascii "t") (by decide)),
      toLower_eq_iff v _ (truthyWords_lower (ascii "true") (by decide)),
      toLower_eq_iff v _ (truthyWords_lower (ascii "y") (by decide)),
      toLower_eq_iff v _ (truthyWords_lower (ascii "yes") (by decide)),
      toLower_eq_iff v _ (truthyWords_lower (ascii "on") (by decide))]
    simp only [truthyWords, List.mem_cons, List.mem_singleton, List.not_mem_nil, or_false,
      exists_eq_or_imp, exists_eq_left]
  unfold strBoolEnv Getenv
  cases hk : env k with
  | none => simp
  | some v =>
    by_cases hv : v = []
    · simp [hv]
    · simp only [Option.getD_some, hv, if_false, reduceCtorEq, Option.some.injEq, or_self]
      by_cases ht : ∃ w ∈ truthyWords, sameIgnoringCase v w = true
      · rw [if_pos ((key v).2 ht)]; simp [ht]
      · rw [if_neg (fun h => ht ((key v).1 h))]; simp [ht]

/-- Witness for claim C4 at the double-quoted string `"it's"`: the wrapping
pair goes, the inner single quote stays. -/
theorem unquote_spec_witness :
    unquote (ascii "\"it's\"") = ascii "it's" :=
  (unquote_spec (ascii "\"it's\"")).2 34 (ascii "it's") (Or.inr rfl) (by decide)

/-- Claim C5, as the code has it: `splitArgs` ignores leading, repeated and
trailing white space, and splits at white space before it strips quotes, so
the quoted token with a space inside becomes two arguments that keep their
one-sided quotes: the example value gives the three arguments `--x=1`,
`'--y=2` and `3'`, the same as with single spaces. -/
theorem splitArgs_example :
    splitArgs argsExample = [ascii "--x=1", ascii "'--y=2", ascii "3'"] ∧
    splitArgs (ascii "--x=1 '--y=2 3'") = splitArgs argsExample := by
  decide

/-- Claim C5 as stated fails: the example value is not split into the two
arguments `--x=1` and `--y=2 3`. -/
theorem splitArgs_example_not_two :
    splitArgs argsExample ≠ [ascii "--x=1", ascii "--y=2 3"] := by
  decide

/-! ### Local DNS merge -/

theorem Split_ne_nil (sep : Nat) (s : GoString) : Split sep s ≠ [] := by
  induction s with
  | nil => simp [Split]
  | cons b rest ih =>
    unfold Split
    split
    · simp
    · split <;> simp

theorem Join_Split (s : GoString) : Join (Split 10 s) [10] = s := by
  induction s with
  | nil => simp [Split, Join]
  | cons b rest ih =>
    unfold Split
    by_cases hb : b = 10
    · rw [if_pos hb]
      have hne := Split_ne_nil 10 rest
      cases hsp : Split 10 rest with
      | nil => exact absurd hsp hne
      | cons l ls =>
        rw [hsp] at ih
        simp [Join, ih, hb]
    · rw [if_neg hb]
      cases hsp : Split 10 rest with
      | nil => exact absurd hsp (Split_ne_nil 10 rest)
      | cons l ls =>
        rw [hsp] at ih
        cases ls with
        | nil => simp [Join] at ih ⊢; exact ih
        | cons m ms => simp [Join] at ih ⊢; exact ih

theorem Split_line_cons (l s : GoString) (hl : 10 ∉ l) :
    Split 10 (l ++ 10 :: s) = l :: Split 10 s := by
  induction l with
  | nil => simp [Split]
  | cons b l ih =>
    have hb : b ≠ 10 := fun h => hl (by simp [h])
    have hl2 : 10 ∉ l := fun h => hl (List.mem_cons_of_mem _ h)
    rw [List.cons_append, Split, if_neg hb, ih hl2]

theorem Split_snoc_nl (s : GoString) : Split 10 (s ++ [10]) = Split 10 s ++ [[]] := by
  induction s with
  | nil => simp [Split]
  | cons b rest ih =>
    rw [List.cons_append, Split, Split]
    by_cases hb : b = 10
    · rw [if_pos hb, if_pos hb, ih]; simp
    · rw [if_neg hb, if_neg hb, ih]
      cases hsp : Split 10 rest with
      | nil => exact absurd hsp (Split_ne_nil 10 rest)
      | cons l ls => simp

theorem Join_append (tp ls : List GoString) (hls : ls ≠ []) :
    Join (tp ++ ls) [10] = lineBlock tp ++ Join ls [10] := by
  induction tp with
  | nil => simp [lineBlock]
  | cons a tp ih =>
    cases htl : tp ++ ls with
    | nil => simp [hls] at htl
    | cons c cs =>
      rw [List.cons_append, htl, Join, ← htl, ih]
      simp [lineBlock]

theorem Split_lineBlock (tp : List GoString) (x : GoString) (htp : ∀ l ∈ tp, 10 ∉ l) :
    Split 10 (lineBlock tp ++ x) = tp ++ Split 10 x := by
  induction tp with
  | nil => simp [lineBlock]
  | cons a tp ih =>
    have ha := htp a (List.mem_cons_self _ _)
    have h2 : ∀ l ∈ tp, 10 ∉ l := fun l hl => htp l (List.mem_cons_of_mem _ hl)
    have : lineBlock (a :: tp) ++ x = a ++ 10 :: (lineBlock tp ++ x) := by
      simp [lineBlock]
    rw [this, Split_line_cons _ _ ha, ih h2]; simp

theorem desiredLines_facts :
    ∀ d ∈ desiredLines, d ≠ [] ∧ 10 ∉ d ∧ TrimSpace d = d := by
  decide

theorem mem_existsSet (lines : List GoString) (d : GoString) (hd : d ≠ []) :
    (existsSet lines).contains d = true ↔ ∃ ln ∈ lines, TrimSpace ln = d := by
  unfold existsSet
  rw [List.contains_iff_exists_mem_beq]
  constructor
  · rintro ⟨t, ht, hbeq⟩
    have htd : d = t := by simpa using hbeq
    rw [List.mem_filter, List.mem_map] at ht
    obtain ⟨⟨ln, hln, rfl⟩, _⟩ := ht
    exact ⟨ln, hln, htd.symm⟩
  · rintro ⟨ln, hln, rfl⟩
    refine ⟨TrimSpace ln, ?_, by simp⟩
    rw [List.mem_filter, List.mem_map]
    exact ⟨⟨ln, hln, rfl⟩, by simpa using hd⟩

theorem toPrepend_eq_missing (orig : GoString) :
    toPrepend (Split 10 orig) = missingLines orig := by
  unfold toPrepend missingLines fileLines
  apply List.filter_congr
  intro d hd
  have hne := (desiredLines_facts d hd).1
  have h := mem_existsSet (Split 10 orig) d hne
  by_cases hc : (existsSet (Split 10 orig)).contains d = true
  · obtain ⟨ln, hln, heq⟩ := h.1 hc
    rw [hc]
    symm
    simp only [Bool.not_true, decide_eq_false_iff_not, not_forall]
    exact ⟨ln, hln, fun hcon => hcon heq⟩
  · have hno : ∀ ln ∈ Split 10 orig, TrimSpace ln ≠ d := fun ln hln heq => hc (h.2 ⟨ln, hln, heq⟩)
    simp only [Bool.not_eq_true] at hc
    rw [hc]
    symm
    simpa using hno

theorem lineBlock_getLast? (tp : List GoString) (htp : tp ≠ []) :
    (lineBlock tp).getLast? = some 10 := by
  induction tp with
  | nil => exact absurd rfl htp
  | cons a tp ih =>
    cases tp with
    | nil => simp [lineBlock]
    | cons b tp =>
      have h := ih (by simp)
      have e : lineBlock (a :: b :: tp) = (a ++ [10]) ++ lineBlock (b :: tp) := by
        simp [lineBlock]
      rw [e, List.getLast?_append, h]; rfl

theorem setupLocalDNS_some (orig : GoString) :
    setupLocalDNS (some orig) =
      some (lineBlock (missingLines orig) ++ orig ++ closingNL orig) := by
  unfold setupLocalDNS closingNL
  simp only
  rw [toPrepend_eq_missing]
  by_cases hm : missingLines orig = []
  · simp [hm, lineBlock]
  · have hlen : ¬ (missingLines orig).length = 0 := by
      simpa [List.length_eq_zero] using hm
    rw [if_neg hlen, Join_append _ _ (Split_ne_nil 10 orig), Join_Split]
    by_cases ho : orig = []
    · have hs : HasSuffixNL (lineBlock (missingLines orig) ++ orig) = true := by
        unfold HasSuffixNL
        rw [ho, List.append_nil, ← ho, lineBlock_getLast? _ hm]; simp
      rw [if_pos hs]
      simp [ho]
    · by_cases hl : orig.getLast? = some 10
      · have hs : HasSuffixNL (lineBlock (missingLines orig) ++ orig) = true := by
          unfold HasSuffixNL
          rw [List.getLast?_append, hl]; simp
        rw [if_pos hs]
        simp [hl]
      · have hs : ¬ HasSuffixNL (lineBlock (missingLines orig) ++ orig) = true := by
          unfold HasSuffixNL
          rw [List.getLast?_append]
          cases hg : orig.getLast? with
          | none => exact absurd (List.getLast?_eq_none_iff.1 hg) ho
          | some x =>
            rw [hg] at hl
            simpa using hl
        rw [if_neg hs]
        simp [hm, ho, hl]


theorem countP_filter_desired (q : GoString → Bool) (d : GoString) (hd : d ∈ desiredLines) :
    (desiredLines.filter q).countP (fun ln => TrimSpace ln = d) = if q d = true then 1 else 0 := by
  have hcases : d = ascii "nameserver 127.0.0.1" ∨ d = ascii "nameserver ::1" := by
    simpa [desiredLines] using hd
  have e : desiredLines.filter q =
      (if q (ascii "nameserver 127.0.0.1") = true then [ascii "nameserver 127.0.0.1"] else []) ++
      (if q (ascii "nameserver ::1") = true then [ascii "nameserver ::1"] else []) := by
    unfold desiredLines
    cases h1 : q (ascii "nameserver 127.0.0.1") <;> cases h2 : q (ascii "nameserver ::1") <;>
      simp [List.filter, h1, h2]
  rw [e]
  rcases hcases with rfl | rfl
  · cases h1 : q (ascii "nameserver 127.0.0.1") <;> cases h2 : q (ascii "nameserver ::1") <;>
      decide
  · cases h1 : q (ascii "nameserver 127.0.0.1") <;> cases h2 : q (ascii "nameserver ::1") <;>
      decide

theorem fileLines_result (orig : GoString) :
    fileLines (lineBlock (missingLines orig) ++ orig ++ closingNL orig) =
      missingLines orig ++ fileLines orig ++ (if closingNL orig = [] then [] else [[]]) := by
  have hm : ∀ l ∈ missingLines orig, 10 ∉ l := by
    intro l hl
    exact (desiredLines_facts l (List.mem_of_mem_filter hl)).2.1
  unfold fileLines
  rw [List.append_assoc, Split_lineBlock _ _ hm]
  unfold closingNL
  split
  · rw [Split_snoc_nl]; simp
  · simp

theorem occurrences_after (st : Option GoString) (d : GoString) (hd : d ∈ desiredLines) :
    occurrences d (setupLocalDNS st) =
      if occurrences d st = 0 then 1 else occurrences d st := by
  cases st with
  | none =>
    have hcases : d = ascii "nameserver 127.0.0.1" ∨ d = ascii "nameserver ::1" := by
      simpa [desiredLines] using hd
    rcases hcases with rfl | rfl <;> decide
  | some orig =>
    have hfacts := desiredLines_facts d hd
    rw [setupLocalDNS_some]
    simp only [occurrences]
    rw [fileLines_result, List.countP_append, List.countP_append]
    have hextra : (if closingNL orig = [] then [] else [[]] : List GoString).countP
        (fun ln => TrimSpace ln = d) = 0 := by
      split
      · rfl
      · have ht : TrimSpace [] ≠ d := fun h => hfacts.1 (h.symm.trans (by decide))
        simp [List.countP_cons, ht]
    rw [hextra, Nat.add_zero]
    unfold missingLines
    rw [countP_filter_desired _ d hd]
    by_cases hz : (fileLines orig).countP (fun ln => TrimSpace ln = d) = 0
    · have hall : ∀ ln ∈ fileLines orig, TrimSpace ln ≠ d := by
        intro ln hln heq
        have := List.countP_eq_zero.1 hz ln hln
        simp [heq] at this
      rw [if_pos (decide_eq_true hall), hz]
      rfl
    · have hex : ¬ ∀ ln ∈ fileLines orig, TrimSpace ln ≠ d := by
        intro hall
        apply hz
        apply List.countP_eq_zero.2
        intro ln hln
        simpa using hall ln hln
      rw [if_neg (fun h => hex (of_decide_eq_true h)), if_neg hz, Nat.zero_add]

theorem merge_fixed_of_no_missing (c : GoString) (h : missingLines c = []) :
    setupLocalDNS (some c) = some c := by
  rw [setupLocalDNS_some]
  simp [closingNL, h, lineBlock]

theorem merge_result_no_missing (st : Option GoString) (c : GoString)
    (hc : setupLocalDNS st = some c) : missingLines c = [] := by
  unfold missingLines
  rw [List.filter_eq_nil_iff]
  intro d hd
  have hocc := occurrences_after st d hd
  rw [hc] at hocc
  have hpos : occurrences d (some c) ≠ 0 := by
    rw [hocc]; split <;> omega
  intro hall
  apply hpos
  unfold occurrences
  apply List.countP_eq_zero.2
  intro ln hln
  have := (of_decide_eq_true hall) ln hln
  simpa using this

theorem setupLocalDNS_isSome (st : Option GoString) : ∃ c, setupLocalDNS st = some c := by
  cases st with
  | none => exact ⟨_, rfl⟩
  | some orig => exact ⟨_, setupLocalDNS_some orig⟩

/-- Claim C1: the merge is idempotent.  For every state of the file, absent
or with any content, a second `setupLocalDNS` leaves the state the first one
left. -/
theorem setupLocalDNS_idempotent (st : Option GoString) :
    setupLocalDNS (setupLocalDNS st) = setupLocalDNS st := by
  obtain ⟨c, hc⟩ := setupLocalDNS_isSome st
  rw [hc]
  exact merge_fixed_of_no_missing c (merge_result_no_missing st c hc)

/-- Claim C10: on a missing file `setupLocalDNS` creates it with exactly the
two desired lines in order, each followed by a newline, and nothing else. -/
theorem setupLocalDNS_missing_file :
    setupLocalDNS none = some (ascii "nameserver 127.0.0.1\nnameserver ::1\n") := by
  decide

/-- Claim C2, as the code has it: on an existing content `orig` the merge
leaves the desired lines no line of `orig` equals after trimming, in their
order and one per line, then `orig` byte for byte, then one closing newline
when lines were prepended and `orig` is not empty and does not end with a
newline; nothing else. -/
theorem setupLocalDNS_existing (orig : GoString) :
    setupLocalDNS (some orig) =
      some (lineBlock (missingLines orig) ++ orig ++
        (if missingLines orig ≠ [] ∧ orig ≠ [] ∧ orig.getLast? ≠ some 10 then [10] else [])) :=
  setupLocalDNS_some orig

/-- Claim C2 as stated fails on the content `search example.com` without a
final newline: the merge leaves the two desired lines, the old content and a
newline, which is not the missing lines prepended to the old content. -/
theorem setupLocalDNS_adds_newline :
    setupLocalDNS (some searchOnly) =
      some (ascii "nameserver 127.0.0.1\nnameserver ::1\nsearch example.com\n") ∧
    setupLocalDNS (some searchOnly) ≠ some (lineBlock (missingLines searchOnly) ++ searchOnly) := by
  decide

/-- Claim C3, as the code has it: after the merge every desired line is in
the file, and the merge adds it only where it was missing: the number of
lines that equal it after trimming is 1 when the file was absent or held no
such line, and otherwise the number the file held before. -/
theorem setupLocalDNS_occurrences (st : Option GoString) (d : GoString)
    (hd : d ∈ desiredLines) :
    occurrences d (setupLocalDNS st) =
      if occurrences d st = 0 then 1 else occurrences d st :=
  occurrences_after st d hd

/-- Witness for claim C3: a file with one foreign line gains the line
`nameserver ::1` once. -/
theorem setupLocalDNS_occurrences_witness :
    occurrences (ascii "nameserver ::1") (setupLocalDNS (some searchOnly)) =
      if occurrences (ascii "nameserver ::1") (some searchOnly) = 0 then 1
      else occurrences (ascii "nameserver ::1") (some searchOnly) :=
  setupLocalDNS_occurrences (some searchOnly) (ascii "nameserver ::1") (by decide)

/-- Claim C3 as stated fails on a file that holds `nameserver 127.0.0.1`
twice: the merge keeps both lines, so that desired line appears twice. -/
theorem setupLocalDNS_keeps_duplicates :
    occurrences (ascii "nameserver 127.0.0.1") (setupLocalDNS (some twiceLocal)) = 2 ∧
    ¬ ∀ d ∈ desiredLines, occurrences d (setupLocalDNS (some twiceLocal)) = 1 := by
  decide

/-! ### Readiness polling -/

theorem pollLoop_returns {α : Type} (good : α → Bool) (probe : Nat → ProbeRun α)
    (deadline : Nat) :
    ∀ f i now, deadline < now + 300 * f →
      ∃ r, pollLoop good probe deadline (f + 1) i now = some r := by
  intro f
  induction f with
  | zero =>
    intro i now h
    rw [pollLoop]
    by_cases hg : good (probe i).report = true
    · exact ⟨_, if_pos hg⟩
    · rw [if_neg hg]
      have : now + (probe i).took > deadline := by omega
      exact ⟨_, if_pos this⟩
  | succ f ih =>
    intro i now h
    rw [pollLoop]
    by_cases hg : good (probe i).report = true
    · exact ⟨_, if_pos hg⟩
    · rw [if_neg hg]
      by_cases hd : now + (probe i).took > deadline
      · exact ⟨_, if_pos hd⟩
      · rw [if_neg hd]
        exact ih (i + 1) (now + (probe i).took + 300) (by omega)

theorem pollLoop_mono {α : Type} (good : α → Bool) (probe : Nat → ProbeRun α)
    (deadline : Nat) :
    ∀ f i now r, pollLoop good probe deadline f i now = some r →
      pollLoop good probe deadline (f + 1) i now = some r := by
  intro f
  induction f with
  | zero => intro i now r h; simp [pollLoop] at h
  | succ f ih =>
    intro i now r h
    rw [pollLoop] at h ⊢
    by_cases hg : good (probe i).report = true
    · rw [if_pos hg] at h ⊢; exact h
    · rw [if_neg hg] at h ⊢
      by_cases hd : now + (probe i).took > deadline
      · rw [if_pos hd] at h ⊢; exact h
      · rw [if_neg hd] at h ⊢
        exact ih _ _ _ h

/-- What any result of the loop satisfies. -/
theorem pollLoop_sound {α : Type} (good : α → Bool) (probe : Nat → ProbeRun α)
    (deadline : Nat) :
    ∀ f i now r, pollLoop good probe deadline f i now = some r →
      i < r.attempts ∧ now ≤ r.clock ∧
      (∀ j, i ≤ j → j + 1 < r.attempts → good (probe j).report = false) ∧
      (r.ready = true → good (probe (r.attempts - 1)).report = true) ∧
      (r.ready = false → deadline < r.clock ∧ good (probe (r.attempts - 1)).report = false) := by
  intro f
  induction f with
  | zero => intro i now r h; simp [pollLoop] at h
  | succ f ih =>
    intro i now r h
    rw [pollLoop] at h
    by_cases hg : good (probe i).report = true
    · rw [if_pos hg, Option.some.injEq] at h
      subst h
      refine ⟨by simp, by simp, ?_, ?_, ?_⟩
      · intro j h1 h2; simp at h2; omega
      · intro _; simpa using hg
      · intro hc; simp at hc
    · rw [if_neg hg] at h
      by_cases hd : now + (probe i).took > deadline
      · rw [if_pos hd, Option.some.injEq] at h
        subst h
        refine ⟨by simp, by simp, ?_, ?_, ?_⟩
        · intro j h1 h2; simp at h2; omega
        · intro hc; simp at hc
        · intro _; exact ⟨hd, by simpa using hg⟩
      · rw [if_neg hd] at h
        obtain ⟨h1, h2, h3, h4, h5⟩ := ih _ _ _ h
        refine ⟨by omega, by omega, ?_, h4, h5⟩
        intro j hj1 hj2
        by_cases hji : j = i
        · subst hji; simpa using hg
        · exact h3 j (by omega) hj2

theorem clockAfter_eq {α : Type} (probe : Nat → ProbeRun α) (start i : Nat) :
    clockAfter probe start i = clockBefore probe start i + (probe i).took := by
  cases i <;> rfl

theorem pollLoop_first_good {α : Type} (good : α → Bool) (probe : Nat → ProbeRun α)
    (start deadline k : Nat)
    (hbad : ∀ j, j < k → good (probe j).report = false)
    (hgood : good (probe k).report = true)
    (hclock : ∀ j, j < k → clockAfter probe start j ≤ deadline) :
    ∀ n i f, i + n = k → n < f →
      pollLoop good probe deadline f i (clockBefore probe start i) =
        some ⟨true, k + 1, clockAfter probe start k⟩ := by
  intro n
  induction n with
  | zero =>
    intro i f hi hf
    have hik : i = k := by omega
    subst hik
    obtain ⟨f, rfl⟩ : ∃ g, f = g + 1 := ⟨f - 1, by omega⟩
    rw [pollLoop, if_pos hgood, clockAfter_eq]
  | succ n ih =>
    intro i f hi hf
    obtain ⟨f, rfl⟩ : ∃ g, f = g + 1 := ⟨f - 1, by omega⟩
    have hb : ¬ good (probe i).report = true := by
      rw [hbad i (by omega)]; simp
    have hc : ¬ clockBefore probe start i + (probe i).took > deadline := by
      have := hclock i (by omega)
      rw [clockAfter_eq] at this
      omega
    rw [pollLoop, if_neg hb, if_neg hc]
    have := ih (i + 1) f (by omega) (by omega)
    rw [← this]
    congr 1
    rw [← clockAfter_eq]
    rfl

theorem pollerContract_pollLoop {α : Type} (good : α → Bool) (probe : Nat → ProbeRun α) :
    PollerContract good probe
      (fun start timeout fuel => pollLoop good probe (start + timeout) fuel 0 start) := by
  refine ⟨?_, ?_, ?_⟩
  · intro start timeout fuel r hr hready
    obtain ⟨_, _, h3, h4, _⟩ := pollLoop_sound good probe _ _ _ _ _ hr
    exact ⟨h4 hready, fun j hj => h3 j (Nat.zero_le _) hj⟩
  · intro start timeout k fuel hk hbad hgood hclock
    exact pollLoop_first_good good probe start _ k hbad hgood hclock k 0 fuel (by omega) hk
  · intro start timeout hnever
    refine ⟨?_, ?_⟩
    · apply pollLoop_returns
      have := Nat.lt_div_mul_add (a := timeout) (b := 300) (by decide)
      omega
    · intro fuel r hr
      obtain ⟨_, _, _, h4, h5⟩ := pollLoop_sound good probe _ _ _ _ _ hr
      have hnr : r.ready = false := by
        cases hrd : r.ready with
        | false => rfl
        | true =>
          have := h4 hrd
          rw [hnever] at this
          exact absurd this (by simp)
      exact ⟨hnr, (h5 hnr).1⟩

/-- Claim C9, as the code has it, for `waitFor` and `waitForTailscaleIP` over
a clock and probe runs that take time: a success is returned at the first
attempt whose probe succeeds and not before; when attempt `k + 1` is the
first to succeed and no earlier attempt ends with the clock after
`start + timeout`, success is returned after exactly `k + 1` attempts; and
for a check that never succeeds the timeout error is returned, and only with
the clock after `start + timeout`. -/
theorem poller_contract (cmd : Nat → ProbeRun (Option Int)) (ip : Nat → ProbeRun GoString) :
    PollerContract (fun ps => ps = some 0) cmd (waitFor cmd) ∧
    PollerContract
      (fun out => TrimSpace out ≠ [] &&
        (Contains (TrimSpace out) (ascii "100.") || Contains (TrimSpace out) (ascii "100:")))
      ip (waitForTailscaleIP ip) :=
  ⟨pollerContract_pollLoop _ cmd, pollerContract_pollLoop _ ip⟩

/-- Witness for claim C9: with a timeout of 30 s and probe runs of 100 ms, a
check that first succeeds on the 3rd attempt returns success after exactly 3
attempts, at clock 900. -/
theorem poller_contract_witness :
    waitFor readyThird 0 30000 (enoughFuel 30000) = some ⟨true, 3, 900⟩ := by
  have h := poller_contract readyThird (fun _ => ⟨[], 0⟩)
  unfold PollerContract at h
  exact h.1.2.1 0 30000 2 (enoughFuel 30000) (by decide) (by decide) (by decide) (by decide)

/-- Claim C9 as stated fails when a probe run is slow: with a timeout of
1000 ms, more than 3 retry intervals of 300 ms, and a check that first
succeeds on the 3rd attempt, `waitFor` returns the timeout error after one
attempt, because the first run ends at clock 1500; likewise
`waitForTailscaleIP` with the timeout of 10 s of its call and a first run
that hangs for 11 s. -/
theorem poller_slow_probe :
    (slowProbe 0).report ≠ some 0 ∧ (slowProbe 1).report ≠ some 0 ∧
    (slowProbe 2).report = some 0 ∧ 3 * 300 < 1000 ∧
    waitFor slowProbe 0 1000 (enoughFuel 1000) = some ⟨false, 1, 1500⟩ ∧
    waitForTailscaleIP (fun _ => hungProbe 2) 0 10000 (enoughFuel 10000) = some ⟨true, 1, 0⟩ ∧
    3 * 300 < 10000 ∧
    waitForTailscaleIP hungProbe 0 10000 (enoughFuel 10000) = some ⟨false, 1, 11000⟩ := by
  decide

/-! ### Supervision -/

theorem mainSteps_fixed (s : Sup) (h : mainStep s = s) : ∀ n, mainSteps n s = s := by
  intro n
  induction n with
  | zero => rfl
  | succ n ih => rw [mainSteps, h, ih]

/-- Claim C7 fails on the code: after the children were started, AdGuardHome
terminates while tailscaled runs and no signal arrives.  `waitLoop` looks for
the exit in `ProcessState` (main.go:316-323), a field only `Cmd.Wait` and
`Cmd.Run` set and `main` never calls on its children, so however many rounds
the loop makes, the supervisor is still in the loop, has recorded no failure
and has signalled, awaited and ended nothing. -/
theorem child_exit_unnoticed :
    (childExits Child.adGuardHome supervising).agh.running = false ∧
    (childExits Child.adGuardHome supervising).tsd.running = true ∧
    ¬ ∃ n, (mainSteps n (childExits Child.adGuardHome supervising)).main ≠ MainPc.looping ∨
        (mainSteps n (childExits Child.adGuardHome supervising)).exitErr ≠ none ∨
        (mainSteps n (childExits Child.adGuardHome supervising)).trace ≠ [] := by
  refine ⟨rfl, rfl, ?_⟩
  rintro ⟨n, hn⟩
  rw [mainSteps_fixed _ (by decide) n] at hn
  revert hn
  decide

/-- Claim C8 fails on the code: when SIGTERM is delivered before the
goroutine of line 287 has reached its receive, the signal waits in the
buffer of `sigCh`, the `select` of `waitLoop` takes it and both children are
signalled with no logout started; the goroutine then blocks on the empty
channel.  When the goroutine is blocked in its receive first, the logout ends
before the children are signalled. -/
theorem first_signal_forwarded_without_logout :
    (exec [Action.deliver Signal.SIGTERM, Action.main] supervising).trace =
      forwardBoth Signal.SIGTERM ∧
    logoutBeforeForward
      (exec [Action.deliver Signal.SIGTERM, Action.main] supervising).trace = false ∧
    (exec [Action.deliver Signal.SIGTERM, Action.main, Action.handler] supervising).handler =
      HandlerPc.parked ∧
    (exec [Action.handler, Action.deliver Signal.SIGTERM, Action.handler, Action.handler,
        Action.handler, Action.main] supervising).trace =
      [Event.logoutStarted, Event.logoutFinished] ++ forwardBoth Signal.SIGTERM := by
  decide

end TailGuard
